import Mathlib

/-! The 0chain (ZCN) gateway object layer.

A shallow embedding of `cmd/gateway/zcn/gateway-zcn.go`: the bucket and object
operations of `zcnObjects`, written as pure functions over an explicit backend
state, together with the `path/filepath` and `strings` functions they call.

Conventions of the embedding

* Go strings are Lean strings; the byte-wise scans of `path/filepath` are
  carried out on the list of characters.  The only bytes those scans inspect
  are `/` and `.`, which never occur inside a multi-byte character.
* `int64` / `int` values (sizes, `maxKeys`) are integers; no arithmetic is
  performed on them by the gateway.
* The allocation (`zob.alloc`) is a value of an arbitrary state type `σ`.  Every
  helper that talks to the allocation takes the state and returns the new
  state; every operation also returns the list of backend calls it issued, in
  the order it issued them.
* A Go `error` result is `Option GoError` (`none` is `nil`); a `(value, error)`
  result is `Except GoError value`.
* `nil` and empty slices are both the empty list.
-/

namespace Zcn

/-! ## Constants of the source file -/

def rootPath : String := "/"

def rootBucketName : String := "root"

/-! ## `strings` and `path/filepath` (Unix) -/

/-- Go `os.IsPathSeparator` on Unix. -/
def IsPathSeparator (c : Char) : Bool := c == '/'

/-- Go `strings.HasSuffix`:
`len(s) >= len(suffix) && s[len(s)-len(suffix):] == suffix`. -/
def HasSuffix (s suffix : String) : Bool :=
  decide (s.data.length ≥ suffix.data.length) &&
    (s.data.drop (s.data.length - suffix.data.length) == suffix.data)

/-- Go `strings.Join(elems, sep)`. -/
def stringsJoin : List String → String → String
  | [], _ => ""
  | [e], _ => e
  | e :: f :: rest, sep => e ++ sep ++ stringsJoin (f :: rest) sep

/-- The `..` case of `filepath.Clean` when it can backtrack:
`out.w--` followed by
`for out.w > dotdot && !os.IsPathSeparator(out.index(out.w)) { out.w-- }`.
The output buffer is held as the reversed list of the bytes written so far, so
its head is the byte at index `w - 1` and its length is `w`. -/
def backtrack (dotdot : Nat) : List Char → List Char
  | [] => []
  | c :: rout =>
    if decide (rout.length > dotdot) && !IsPathSeparator c then backtrack dotdot rout
    else rout

/-- The main loop `for r < n { switch { ... } }` of `filepath.Clean`.
`path` is the unread input `path[r:]`, `rout` the reversed output buffer,
`dotdot` the index where `..` must stop.  Every iteration reads at least one
byte; the first argument bounds the number of iterations, `Clean` passes the
length of the input, and a larger bound gives the same result
(`cleanLoop_fuel`). -/
def cleanLoop (rooted : Bool) : Nat → List Char → List Char → Nat → List Char
  | 0, _, rout, _ => rout
  | fuel + 1, path, rout, dotdot =>
    match path with
    | [] => rout
    | c :: rest =>
      if IsPathSeparator c then
        -- empty path element
        cleanLoop rooted fuel rest rout dotdot
      else if c == '.' && (rest.isEmpty || (rest.head?.map IsPathSeparator == some true)) then
        -- . element
        cleanLoop rooted fuel rest rout dotdot
      else if c == '.' && rest.head? == some '.' &&
          (rest.tail.isEmpty || (rest.tail.head?.map IsPathSeparator == some true)) then
        -- .. element: remove to last separator
        if rout.length > dotdot then
          -- can backtrack
          cleanLoop rooted fuel rest.tail (backtrack dotdot rout) dotdot
        else if !rooted then
          -- cannot backtrack, but not rooted, so append .. element.
          let rout1 := if rout.length > 0 then '/' :: rout else rout
          let rout2 := '.' :: '.' :: rout1
          cleanLoop rooted fuel rest.tail rout2 rout2.length
        else
          cleanLoop rooted fuel rest.tail rout dotdot
      else
        -- real path element. add slash if needed
        let rout1 :=
          if (rooted && rout.length != 1) || (!rooted && rout.length != 0) then '/' :: rout
          else rout
        -- copy element
        cleanLoop rooted fuel ((c :: rest).dropWhile (fun x => !IsPathSeparator x))
          (((c :: rest).takeWhile (fun x => !IsPathSeparator x)).reverse ++ rout1) dotdot

/-- Go `filepath.Clean` on Unix (no volume name, `FromSlash` is the identity). -/
def Clean (path : String) : String :=
  if path.data.isEmpty then "."
  else
    let rooted := path.data.head?.map IsPathSeparator == some true
    let rout :=
      if rooted then cleanLoop rooted path.data.length path.data.tail ['/'] 1
      else cleanLoop rooted path.data.length path.data [] 0
    -- Turn empty string into "."
    let rout := if rout.length == 0 then ['.'] else rout
    ⟨rout.reverse⟩

/-- Go `filepath.Join` on Unix: the elements from the first non-empty one on
are joined with the separator and cleaned; the result is empty when every
element is empty. -/
def Join : List String → String
  | [] => ""
  | e :: rest =>
    if e.data.isEmpty then Join rest else Clean (stringsJoin (e :: rest) "/")

/-- Go `filepath.Split`: `dir` is the path up to and including the last
separator, `file` what follows it. -/
def Split (path : String) : String × String :=
  (⟨(path.data.reverse.dropWhile (fun x => !IsPathSeparator x)).reverse⟩,
   ⟨(path.data.reverse.takeWhile (fun x => !IsPathSeparator x)).reverse⟩)

/-! ## Data model -/

/-- Go `time.Time`, as the number of nanoseconds since the Unix epoch. -/
structure Time where
  unixNano : Int
deriving DecidableEq, Repr

/-- The zero `time.Time` (January 1, year 1, 00:00:00 UTC). -/
def Time.zero : Time := ⟨-62135596800 * 1000000000⟩

instance : Inhabited Time := ⟨Time.zero⟩

/-- Go `time.Hour`, a `time.Duration` in nanoseconds. -/
def Hour : Int := 3600 * 1000000000

/-- Go `Time.Add`. -/
def Time.Add (t : Time) (d : Int) : Time := ⟨t.unixNano + d⟩

/-- The SDK's `common.Timestamp.ToTime`: `time.Unix(int64(t), 0)`. -/
def ToTime (t : Int) : Time := ⟨t * 1000000000⟩

/-- The fields of `sdk.ORef` the gateway reads; `RefType` is the field `Type`. -/
structure ORef where
  RefType : String
  Path : String
  Name : String
  Size : Int
  ActualFileSize : Int
  ActualFileHash : String
  MimeType : String
  CreatedAt : Int
  UpdatedAt : Int
deriving DecidableEq, Repr

/-- Go `error` values seen by the gateway: errors without further structure
(`errors.New`, `fmt.Errorf`, whatever the SDK returns) carry their message;
`minio.BucketNotFound` and `minio.ObjectNotFound` are the typed errors the
gateway constructs. -/
inductive GoError where
  | text (msg : String)
  | BucketNotFound (Bucket : String)
  | ObjectNotFound (Bucket Object : String)
deriving DecidableEq, Repr

/-- The type `minio.BucketInfo`. -/
structure BucketInfo where
  Name : String := ""
  Created : Time := Time.zero
deriving DecidableEq, Repr

/-- The fields of `minio.ObjectInfo` the gateway sets; the defaults are the Go
zero values. -/
structure ObjectInfo where
  Bucket : String := ""
  Name : String := ""
  ModTime : Time := Time.zero
  Size : Int := 0
  IsDir : Bool := false
  ETag : String := ""
  ContentType : String := ""
  AccTime : Time := Time.zero
  StorageClass : String := ""
deriving DecidableEq, Repr

/-- The type `minio.ListObjectsInfo`. -/
structure ListObjectsInfo where
  IsTruncated : Bool := false
  NextMarker : String := ""
  Objects : List ObjectInfo := []
  Prefixes : List String := []
deriving DecidableEq, Repr

/-- The type `minio.ListObjectsV2Info`. -/
structure ListObjectsV2Info where
  IsTruncated : Bool := false
  ContinuationToken : String := ""
  NextContinuationToken : String := ""
  Objects : List ObjectInfo := []
  Prefixes : List String := []
deriving DecidableEq, Repr

/-- The type `minio.ObjectToDelete`. -/
structure ObjectToDelete where
  ObjectName : String
  VersionID : String := ""
deriving DecidableEq, Repr

/-- The type `minio.DeletedObject`. -/
structure DeletedObject where
  ObjectName : String := ""
  VersionID : String := ""
deriving DecidableEq, Repr

/-- The type `minio.DeleteBucketOptions`. -/
structure DeleteBucketOptions where
  Force : Bool := false
deriving DecidableEq, Repr

/-- The type `minio.HTTPRangeSpec`. -/
structure HTTPRangeSpec where
  IsSuffixLength : Bool
  Start : Int
  End : Int
deriving DecidableEq, Repr

/-- The local file returned by `getFileReader`: the outcome of `f.Stat()`
(the size reported by `finfo.Size()`) is all the gateway asks of it. -/
structure File where
  Stat : Except GoError Int

/-- Go `io.NewSectionReader(f, off, n)`. -/
structure SectionReader where
  f : File
  off : Int
  n : Int

/-- The type `minio.GetObjectReader`: the section reader it wraps, the object
info it reports and the path of the staged file its closer removes. -/
structure GetObjectReader where
  ObjInfo : ObjectInfo
  reader : SectionReader
  cleanUp : String

/-! ## The backend -/

/-- A call issued to the allocation, with its arguments. -/
inductive Call where
  | getSingleRegularRef (remotePath : String)
  | DeleteFile (remotePath : String)
  | listRegularRefs (remotePath marker fileType : String) (maxRefs : Int) (isDelimited : Bool)
  | listRootDir (fileType : String)
  | getFileReader (remotePath : String) (size : Nat)
deriving DecidableEq, Repr

/-- What `gateway-zcn.go` uses and does not declare: the constants `dirType`
and `fileType` and the helpers `getSingleRegularRef`, `isPathNoExistError`,
`listRegularRefs`, `listRootDir`, `getCommonPrefix` and `getFileReader` of the
package, `Allocation.DeleteFile` of the SDK, and `HTTPRangeSpec.GetOffsetLength`
and `NewGetObjectReaderFromReader` of the host.  They are parameters of the
embedding.  `σ` is the state of the allocation. -/
structure Deps (σ : Type) where
  dirType : String
  fileType : String
  getSingleRegularRef : σ → String → Except GoError ORef × σ
  isPathNoExistError : GoError → Bool
  listRegularRefs : σ → String → String → String → Int → Bool →
    Except GoError (List ORef × Bool × String × List String) × σ
  listRootDir : σ → String → Except GoError (List ORef) × σ
  getCommonPrefix : String → String
  DeleteFile : σ → String → Option GoError × σ
  getFileReader : σ → String → Nat → Except GoError (File × String) × σ
  GetOffsetLength : Option HTTPRangeSpec → Int → Except GoError (Int × Int)
  NewGetObjectReaderFromReader : SectionReader → ObjectInfo → String → Except GoError GetObjectReader

/-- The outcome of an operation: the value it returns, the state of the
allocation afterwards and the backend calls it issued, in order. -/
structure Run (σ : Type) (α : Type) where
  val : α
  st : σ
  calls : List Call

variable {σ : Type}

/-! ## Operations of `zcnObjects` -/

/-- The operation `zcnObjects.DeleteBucket`: delete only empty bucket unless forced. -/
def DeleteBucket (d : Deps σ) (s : σ) (bucketName : String) (opts : DeleteBucketOptions) :
    Run σ (Option GoError) :=
  if bucketName = rootBucketName then
    ⟨some (.text "cannot remove root path"), s, []⟩
  else
    let remotePath := Join [rootPath, bucketName]
    match d.getSingleRegularRef s remotePath with
    | (.error err, s1) => ⟨some err, s1, [.getSingleRegularRef remotePath]⟩
    | (.ok ref, s1) =>
      if ref.RefType ≠ d.dirType then
        ⟨some (.text (bucketName ++ " is object not bucket")), s1,
          [.getSingleRegularRef remotePath]⟩
      else if opts.Force then
        let r := d.DeleteFile s1 remotePath
        ⟨r.1, r.2, [.getSingleRegularRef remotePath, .DeleteFile remotePath]⟩
      else if ref.Size > 0 then
        ⟨some (.text (bucketName ++ " bucket is not empty")), s1,
          [.getSingleRegularRef remotePath]⟩
      else
        let r := d.DeleteFile s1 remotePath
        ⟨r.1, r.2, [.getSingleRegularRef remotePath, .DeleteFile remotePath]⟩

/-- The operation `zcnObjects.DeleteObject`. `now` is the value of `time.Now()`. -/
def DeleteObject (d : Deps σ) (now : Time) (s : σ) (bucket object : String) :
    Run σ (Except GoError ObjectInfo) :=
  let remotePath :=
    if bucket = rootBucketName then Join [rootPath, object]
    else Join [rootPath, bucket, object]
  match d.getSingleRegularRef s remotePath with
  | (.error err, s1) => ⟨.error err, s1, [.getSingleRegularRef remotePath]⟩
  | (.ok ref, s1) =>
    match d.DeleteFile s1 remotePath with
    | (some err, s2) =>
      ⟨.error err, s2, [.getSingleRegularRef remotePath, .DeleteFile remotePath]⟩
    | (none, s2) =>
      ⟨.ok { Bucket := bucket, Name := ref.Name, ModTime := now,
             Size := ref.ActualFileSize, IsDir := ref.RefType == d.dirType },
        s2, [.getSingleRegularRef remotePath, .DeleteFile remotePath]⟩

/-- The state of the loop of `DeleteObjects`: the allocation, the two result
slices and the calls issued so far. -/
structure DeleteObjectsAcc (σ : Type) where
  st : σ
  delObs : List DeletedObject
  errs : List GoError
  calls : List Call

/-- One iteration of the loop of `DeleteObjects`. -/
def deleteObjectsStep (d : Deps σ) (basePath : String) (acc : DeleteObjectsAcc σ)
    (object : ObjectToDelete) : DeleteObjectsAcc σ :=
  let remotePath := Join [basePath, object.ObjectName]
  match d.DeleteFile acc.st remotePath with
  | (some err, s1) =>
    { st := s1, delObs := acc.delObs, errs := acc.errs ++ [err],
      calls := acc.calls ++ [.DeleteFile remotePath] }
  | (none, s1) =>
    { st := s1, delObs := acc.delObs ++ [{ ObjectName := object.ObjectName }],
      errs := acc.errs, calls := acc.calls ++ [.DeleteFile remotePath] }

/-- The operation `zcnObjects.DeleteObjects`. -/
def DeleteObjects (d : Deps σ) (s : σ) (bucket : String) (objects : List ObjectToDelete) :
    Run σ (List DeletedObject × List GoError) :=
  let basePath := if bucket = rootBucketName then rootPath else Join [rootPath, bucket]
  let acc := objects.foldl (deleteObjectsStep d basePath) ⟨s, [], [], []⟩
  ⟨(acc.delObs, acc.errs), acc.st, acc.calls⟩

/-- The operation `zcnObjects.GetBucketInfo`: get directory's metadata and present it as
`minio.BucketInfo`. -/
def GetBucketInfo (d : Deps σ) (s : σ) (bucket : String) : Run σ (Except GoError BucketInfo) :=
  let remotePath := if bucket = rootBucketName then rootPath else Join [rootPath, bucket]
  match d.getSingleRegularRef s remotePath with
  | (.error err, s1) =>
    if d.isPathNoExistError err then
      if remotePath = rootPath then
        ⟨.ok { Name := rootBucketName }, s1, [.getSingleRegularRef remotePath]⟩
      else
        ⟨.error (.BucketNotFound bucket), s1, [.getSingleRegularRef remotePath]⟩
    else ⟨.error err, s1, [.getSingleRegularRef remotePath]⟩
  | (.ok ref, s1) =>
    ⟨.ok { Name := ref.Name, Created := ToTime ref.CreatedAt }, s1,
      [.getSingleRegularRef remotePath]⟩

/-- The operation `zcnObjects.GetObjectInfo`: get file meta data and respond it as
`minio.ObjectInfo`. -/
def GetObjectInfo (d : Deps σ) (now : Time) (s : σ) (bucket object : String) :
    Run σ (Except GoError ObjectInfo) :=
  let remotePath :=
    if bucket = rootBucketName then Join [rootPath, object]
    else Join [rootPath, bucket, object]
  match d.getSingleRegularRef s remotePath with
  | (.error err, s1) =>
    if d.isPathNoExistError err then
      ⟨.error (.ObjectNotFound bucket object), s1, [.getSingleRegularRef remotePath]⟩
    else ⟨.error err, s1, [.getSingleRegularRef remotePath]⟩
  | (.ok ref, s1) =>
    ⟨.ok { Bucket := bucket, Name := d.getCommonPrefix remotePath,
           ModTime := ToTime ref.UpdatedAt, Size := ref.ActualFileSize,
           IsDir := ref.RefType == d.dirType, AccTime := now, ContentType := ref.MimeType },
      s1, [.getSingleRegularRef remotePath]⟩

/-- The operation `zcnObjects.GetObjectNInfo`: provides reader with read cursor placed at
offset upto some length. -/
def GetObjectNInfo (d : Deps σ) (s : σ) (bucket object : String) (rs : Option HTTPRangeSpec) :
    Run σ (Except GoError GetObjectReader) :=
  let remotePath :=
    if bucket = rootBucketName then Join [rootPath, object]
    else Join [rootPath, bucket, object]
  match d.getSingleRegularRef s remotePath with
  | (.error err, s1) =>
    if d.isPathNoExistError err then
      ⟨.error (.ObjectNotFound bucket object), s1, [.getSingleRegularRef remotePath]⟩
    else ⟨.error err, s1, [.getSingleRegularRef remotePath]⟩
  | (.ok ref, s1) =>
    let objectInfo : ObjectInfo :=
      { Bucket := bucket, Name := ref.Name, ModTime := ToTime ref.UpdatedAt,
        Size := ref.ActualFileSize, IsDir := ref.RefType == d.dirType }
    -- uint64(ref.ActualFileSize)
    let size := (ref.ActualFileSize % 2 ^ 64).toNat
    let calls := [Call.getSingleRegularRef remotePath, Call.getFileReader remotePath size]
    match d.getFileReader s1 remotePath size with
    | (.error err, s2) => ⟨.error err, s2, calls⟩
    | (.ok (f, localPath), s2) =>
      match f.Stat with
      | .error err => ⟨.error err, s2, calls⟩
      | .ok finfoSize =>
        match d.GetOffsetLength rs finfoSize with
        | .error err => ⟨.error err, s2, calls⟩
        | .ok (startOffset, length) =>
          ⟨d.NewGetObjectReaderFromReader ⟨f, startOffset, length⟩ objectInfo localPath,
            s2, calls⟩

/-- The operation `zcnObjects.ListBuckets`: lists directories of root path(/) and root path
itself as buckets. `now` is the value of `time.Now()`. -/
def ListBuckets (d : Deps σ) (now : Time) (s : σ) : Run σ (Except GoError (List BucketInfo)) :=
  match d.getSingleRegularRef s rootPath with
  | (.error err, s1) =>
    if d.isPathNoExistError err then
      ⟨.ok [{ Name := rootBucketName, Created := now.Add (-Hour * 30) }], s1,
        [.getSingleRegularRef rootPath]⟩
    else ⟨.error err, s1, [.getSingleRegularRef rootPath]⟩
  | (.ok rootRef, s1) =>
    match d.listRootDir s1 "d" with
    | (.error err, s2) => ⟨.error err, s2, [.getSingleRegularRef rootPath, .listRootDir "d"]⟩
    | (.ok dirRefs, s2) =>
      -- Consider root path as bucket as well.
      ⟨.ok ({ Name := rootBucketName, Created := ToTime rootRef.CreatedAt } ::
          dirRefs.map (fun dirRef =>
            { Name := dirRef.Name, Created := ToTime dirRef.CreatedAt })),
        s2, [.getSingleRegularRef rootPath, .listRootDir "d"]⟩

/-- The value of `remotePath` that `ListObjects` passes to the resolver: the
join of the root path, the bucket (left out for the root bucket) and the
prefix; when the prefix has the suffix `/`, that path cleaned and followed by
`/`. -/
def listObjectsPath (bucket pfx : String) : String :=
  let remotePath :=
    if bucket = rootBucketName then Join [rootPath, pfx]
    else Join [rootPath, bucket, pfx]
  if HasSuffix pfx "/" then Clean remotePath ++ "/" else remotePath

/-- The loop at the end of `ListObjects`: directory entries are skipped, every
other entry is appended as an object. -/
def listObjectsLoop (d : Deps σ) (bucket : String) :
    List ORef → List ObjectInfo → List ObjectInfo
  | [], objects => objects
  | ref :: refs, objects =>
    if ref.RefType = d.dirType then listObjectsLoop d bucket refs objects
    else
      listObjectsLoop d bucket refs
        (objects ++ [{ Bucket := bucket, Name := ref.Name, ModTime := ToTime ref.UpdatedAt,
                       Size := ref.ActualFileSize, IsDir := false,
                       ContentType := ref.MimeType, ETag := ref.ActualFileHash,
                       StorageClass := "STANDARD" }])

/-- The operation `zcnObjects.ListObjects`: lists files of directories as objects.
`now` is the value of `time.Now()`. -/
def ListObjects (d : Deps σ) (now : Time) (s : σ) (bucket pfx marker delimiter : String)
    (maxKeys : Int) : Run σ (Except GoError ListObjectsInfo) :=
  -- objFileType: for root path list objects should only provide file and not dirs.
  let remotePath := listObjectsPath bucket pfx
  let objFileType := if bucket = rootBucketName then d.fileType else ""
  let isSuffix := HasSuffix pfx "/"
  match d.getSingleRegularRef s remotePath with
  | (.error err, s1) =>
    if d.isPathNoExistError err then ⟨.ok {}, s1, [.getSingleRegularRef remotePath]⟩
    else ⟨.error err, s1, [.getSingleRegularRef remotePath]⟩
  | (.ok ref, s1) =>
    if ref.RefType = d.fileType then
      if isSuffix then
        ⟨.ok { IsTruncated := false, Objects := [], Prefixes := [] }, s1,
          [.getSingleRegularRef remotePath]⟩
      else
        let parentPath := (Split ref.Path).1
        let fileName := (Split ref.Path).2
        let commonPrefix := d.getCommonPrefix parentPath
        let objName := Join [commonPrefix, fileName]
        ⟨.ok { IsTruncated := false,
               Objects := [{ Bucket := bucket, Name := objName, Size := ref.ActualFileSize,
                             IsDir := false, ModTime := ToTime ref.UpdatedAt,
                             ETag := ref.ActualFileHash, ContentType := ref.MimeType,
                             AccTime := now, StorageClass := "STANDARD" }],
               Prefixes := [] },
          s1, [.getSingleRegularRef remotePath]⟩
    else
      let isDelimited := decide (delimiter ≠ "")
      let calls := [Call.getSingleRegularRef remotePath,
        Call.listRegularRefs remotePath marker objFileType maxKeys isDelimited]
      match d.listRegularRefs s1 remotePath marker objFileType maxKeys isDelimited with
      | (.error err, s2) =>
        if remotePath = rootPath && d.isPathNoExistError err then ⟨.ok {}, s2, calls⟩
        else ⟨.error err, s2, calls⟩
      | (.ok (refs, isTruncated, nextMarker, prefixes), s2) =>
        ⟨.ok { IsTruncated := isTruncated, NextMarker := nextMarker,
               Objects := listObjectsLoop d bucket refs [], Prefixes := prefixes },
          s2, calls⟩

/-- The operation `zcnObjects.ListObjectsV2`. -/
def ListObjectsV2 (d : Deps σ) (now : Time) (s : σ)
    (bucket pfx continuationToken delimiter : String) (maxKeys : Int)
    (startAfter : String) : Run σ (Except GoError ListObjectsV2Info) :=
  let marker := if continuationToken = "" then startAfter else continuationToken
  let r := ListObjects d now s bucket pfx marker delimiter maxKeys
  match r.val with
  | .error err => ⟨.error err, r.st, r.calls⟩
  | .ok resultV1 =>
    ⟨.ok { Objects := resultV1.Objects, Prefixes := resultV1.Prefixes,
           ContinuationToken := continuationToken,
           NextContinuationToken := resultV1.NextMarker,
           IsTruncated := resultV1.IsTruncated },
      r.st, r.calls⟩

/-! ## Reference descriptions used by the statements -/

/-- The path of a bucket: `/` for the root bucket, `/<bucket>` (normalised)
for every other bucket. -/
def bucketPath (bucket : String) : String :=
  if bucket = rootBucketName then rootPath else Join [rootPath, bucket]

/-- The path of an object: `/<object>` for the root bucket, `/<bucket>/<object>`
for every other bucket, normalised. -/
def objectPath (bucket object : String) : String :=
  if bucket = rootBucketName then Join [rootPath, object] else Join [rootPath, bucket, object]

/-- The outcomes of a batch delete described object by object: every listed
object, in list order, paired with the result of one backend delete of its
path, issued in the state left by the deletes of the objects before it. -/
def batchOutcomes (d : Deps σ) (basePath : String) :
    σ → List ObjectToDelete → List (ObjectToDelete × Option GoError)
  | _, [] => []
  | s, o :: os =>
    (o, (d.DeleteFile s (Join [basePath, o.ObjectName])).1) ::
      batchOutcomes d basePath (d.DeleteFile s (Join [basePath, o.ObjectName])).2 os

/-- The state of the allocation after the deletes of a batch. -/
def batchFinalState (d : Deps σ) (basePath : String) : σ → List ObjectToDelete → σ
  | s, [] => s
  | s, o :: os => batchFinalState d basePath (d.DeleteFile s (Join [basePath, o.ObjectName])).2 os

/-- The output buffer of `Clean` (reversed, so its head is the last byte
written) does not end with a separator, unless the path is rooted and the
buffer holds the root alone. -/
def NoTrailingSlash (rooted : Bool) (rout : List Char) : Prop :=
  rout.head? = some '/' → rooted = true ∧ rout = ['/']

/-- The output buffer of `Clean` holds no two adjacent separators. -/
def NoDoubleSlash (rout : List Char) : Prop :=
  List.Chain' (fun a b => ¬ (a = '/' ∧ b = '/')) rout

/-- The invariant of the loop of `Clean`: the buffer has no trailing and no
doubled separator, `dotdot` is an index into it, and the first `dotdot` bytes,
below which `..` does not backtrack, have no trailing separator either. -/
def CleanInv (rooted : Bool) (rout : List Char) (dotdot : Nat) : Prop :=
  NoTrailingSlash rooted rout ∧ NoDoubleSlash rout ∧ dotdot ≤ rout.length ∧
    NoTrailingSlash rooted (rout.drop (rout.length - dotdot))

/-! ## A sample allocation -/

/-- The error the sample allocation reports for a path that does not exist. -/
def pathNoExist : GoError := .text "invalid_path: path does not exist"

/-- An in-memory allocation: the state is the list of its nodes.  A path
resolves to the node that carries it, a delete removes that node, a listing
returns the nodes directly under the path in a single page. -/
def memAlloc : Deps (List ORef) where
  dirType := "d"
  fileType := "f"
  getSingleRegularRef := fun s p =>
    match s.find? (fun r => r.Path == p) with
    | some r => (.ok r, s)
    | none => (.error pathNoExist, s)
  isPathNoExistError := fun e => e == pathNoExist
  listRegularRefs := fun s p _ t _ _ =>
    (.ok (s.filter (fun r => (Split r.Path).1 == p ++ "/" && (t == "" || r.RefType == t)),
      false, "", []), s)
  listRootDir := fun s t =>
    (.ok (s.filter (fun r => (Split r.Path).1 == "/" && r.Path != "/" && r.RefType == t)), s)
  getCommonPrefix := fun _ => ""
  DeleteFile := fun s p =>
    if s.any (fun r => r.Path == p) then (none, s.filter (fun r => r.Path != p))
    else (some pathNoExist, s)
  getFileReader := fun s _ size => (.ok (⟨.ok size⟩, "/tmp/staged"), s)
  GetOffsetLength := fun _ size => .ok (0, size)
  NewGetObjectReaderFromReader := fun r oi localPath => .ok ⟨oi, r, localPath⟩

/-- The sample allocation with a listing that reports a truncated page
without a marker. -/
def memAllocNoMarker : Deps (List ORef) :=
  { memAlloc with listRegularRefs := fun s _ _ _ _ _ => (.ok ([], true, "", []), s) }

/-- A directory node of the sample allocation. -/
def dirNode (path name : String) (size created : Int) : ORef :=
  { RefType := "d", Path := path, Name := name, Size := size, ActualFileSize := 0,
    ActualFileHash := "", MimeType := "", CreatedAt := created, UpdatedAt := created }

/-- A file node of the sample allocation. -/
def fileNode (path name : String) (size : Int) (hash mime : String) (updated : Int) : ORef :=
  { RefType := "f", Path := path, Name := name, Size := size, ActualFileSize := size,
    ActualFileHash := hash, MimeType := mime, CreatedAt := updated, UpdatedAt := updated }

/-- The allocation of the scenario: `/docs` is a directory holding the file
`/docs/readme.md` of size 120; `/notes.txt` is a file under the root. -/
def sampleTree : List ORef :=
  [dirNode "/" "/" 120 1000,
   dirNode "/docs" "docs" 120 2000,
   fileNode "/docs/readme.md" "readme.md" 120 "abc123" "text/markdown" 3000,
   fileNode "/notes.txt" "notes.txt" 7 "def456" "text/plain" 4000]

/-! ## Theorems -/

/-- C1: `DeleteBucket` on the bucket `root` fails with the error
"cannot remove root path" for every value of the options and every backend and
backend state; it issues no backend call at all (no resolve, no delete) and
leaves the state unchanged. -/
theorem deleteBucket_root_always_fails (d : Deps σ) (s : σ) (opts : DeleteBucketOptions) :
    (DeleteBucket d s "root" opts).val = some (.text "cannot remove root path") ∧
    (DeleteBucket d s "root" opts).calls = [] ∧
    (DeleteBucket d s "root" opts).st = s := by
  simp [DeleteBucket, rootBucketName]

/-- C2: for a bucket other than `root`, `DeleteBucket` issues the backend
delete on the bucket path exactly when that path resolves to a directory node
and (force is set or the node size is not greater than 0); it then returns the
result of that delete.  Otherwise it returns an error and issues no delete. -/
theorem deleteBucket_non_root (d : Deps σ) (s : σ) (bucketName : String)
    (opts : DeleteBucketOptions) (h : bucketName ≠ rootBucketName) :
    (Call.DeleteFile (Join [rootPath, bucketName]) ∈ (DeleteBucket d s bucketName opts).calls ↔
      ∃ ref, (d.getSingleRegularRef s (Join [rootPath, bucketName])).1 = .ok ref ∧
        ref.RefType = d.dirType ∧ (opts.Force = true ∨ ¬ ref.Size > 0)) ∧
    ((∃ ref, (d.getSingleRegularRef s (Join [rootPath, bucketName])).1 = .ok ref ∧
        ref.RefType = d.dirType ∧ (opts.Force = true ∨ ¬ ref.Size > 0)) →
      (DeleteBucket d s bucketName opts).val =
        (d.DeleteFile (d.getSingleRegularRef s (Join [rootPath, bucketName])).2
          (Join [rootPath, bucketName])).1 ∧
      (DeleteBucket d s bucketName opts).calls =
        [.getSingleRegularRef (Join [rootPath, bucketName]),
         .DeleteFile (Join [rootPath, bucketName])]) ∧
    ((¬ ∃ ref, (d.getSingleRegularRef s (Join [rootPath, bucketName])).1 = .ok ref ∧
        ref.RefType = d.dirType ∧ (opts.Force = true ∨ ¬ ref.Size > 0)) →
      (∃ err, (DeleteBucket d s bucketName opts).val = some err) ∧
      ∀ p, Call.DeleteFile p ∉ (DeleteBucket d s bucketName opts).calls) := by
  unfold DeleteBucket
  rw [if_neg h]
  rcases hres : d.getSingleRegularRef s (Join [rootPath, bucketName]) with ⟨res, s1⟩
  cases res with
  | error err => simp [hres]
  | ok ref =>
    by_cases ht : ref.RefType = d.dirType
    · by_cases hf : opts.Force = true
      · simp [hres, ht, hf]
      · by_cases hs : ref.Size > 0
        · simp [hres, ht, hf, hs]
        · have hle : ref.Size ≤ 0 := not_lt.mp hs
          have hnl : ¬ 0 < ref.Size := hs
          simp [hres, ht, hf, hnl, hle]
    · simp [hres, ht]

/-- C2, applied to the sample allocation: the non-empty bucket `docs` is not
deleted without force (an error, no delete call). -/
theorem deleteBucket_non_root_witness :
    "docs" ≠ rootBucketName ∧
    ((∃ err, (DeleteBucket memAlloc sampleTree "docs" { Force := false }).val = some err) ∧
      ∀ p, Call.DeleteFile p ∉
        (DeleteBucket memAlloc sampleTree "docs" { Force := false }).calls) :=
  ⟨by decide,
    (deleteBucket_non_root memAlloc sampleTree "docs" { Force := false } (by decide)).2.2
      (by
        rintro ⟨ref, h1, -, h3⟩
        have hr : (memAlloc.getSingleRegularRef sampleTree (Join [rootPath, "docs"])).1 =
            .ok (dirNode "/docs" "docs" 120 2000) := by rfl
        rw [hr] at h1
        injection h1 with h1
        subst h1
        rcases h3 with h3 | h3
        · exact absurd h3 (by decide)
        · exact h3 (by decide))⟩

/-- The loop of `DeleteObjects`, started from any accumulator, appends to the
three lists what the object-by-object description prescribes. -/
theorem deleteObjects_foldl (d : Deps σ) (basePath : String) (objects : List ObjectToDelete) :
    ∀ acc : DeleteObjectsAcc σ,
      (objects.foldl (deleteObjectsStep d basePath) acc).delObs =
          acc.delObs ++ ((batchOutcomes d basePath acc.st objects).filter
            (fun p => p.2.isNone)).map (fun p => ({ ObjectName := p.1.ObjectName } : DeletedObject)) ∧
      (objects.foldl (deleteObjectsStep d basePath) acc).errs =
          acc.errs ++ (batchOutcomes d basePath acc.st objects).filterMap (fun p => p.2) ∧
      (objects.foldl (deleteObjectsStep d basePath) acc).calls =
          acc.calls ++ objects.map (fun o => Call.DeleteFile (Join [basePath, o.ObjectName])) ∧
      (objects.foldl (deleteObjectsStep d basePath) acc).st =
          batchFinalState d basePath acc.st objects := by
  induction objects with
  | nil => intro acc; simp [batchOutcomes, batchFinalState]
  | cons o os ih =>
    intro acc
    rw [List.foldl_cons]
    obtain ⟨h1, h2, h3, h4⟩ := ih (deleteObjectsStep d basePath acc o)
    rw [h1, h2, h3, h4]
    rcases hdel : d.DeleteFile acc.st (Join [basePath, o.ObjectName]) with ⟨r, s1⟩
    cases r with
    | none => simp [deleteObjectsStep, batchOutcomes, batchFinalState, hdel]
    | some err => simp [deleteObjectsStep, batchOutcomes, batchFinalState, hdel]

/-- The two result lists of a batch together have one entry per object. -/
theorem batchOutcomes_split (d : Deps σ) (basePath : String) (objects : List ObjectToDelete) :
    ∀ s : σ,
      (((batchOutcomes d basePath s objects).filter (fun p => p.2.isNone)).map
          (fun p => ({ ObjectName := p.1.ObjectName } : DeletedObject))).length +
        ((batchOutcomes d basePath s objects).filterMap (fun p => p.2)).length =
      objects.length := by
  induction objects with
  | nil => intro s; simp [batchOutcomes]
  | cons o os ih =>
    intro s
    have h := ih (d.DeleteFile s (Join [basePath, o.ObjectName])).2
    rcases hdel : (d.DeleteFile s (Join [basePath, o.ObjectName])).1 with _ | err
    · simp only [batchOutcomes, hdel, List.filter_cons, Option.isNone_none, if_true,
        List.map_cons, List.length_cons, List.filterMap_cons_none] at h ⊢
      omega
    · simp only [batchOutcomes, hdel, List.filter_cons, Option.isNone_some,
        Bool.false_eq_true, if_false, List.length_cons, List.filterMap_cons] at h ⊢
      omega

/-- C3: `DeleteObjects` never short-circuits.  For every bucket and list of
objects it issues exactly one backend delete per listed object, in list order
and nothing else; the deleted list is the names of the objects whose delete
succeeded, in input order; the error list is the errors of the objects whose
delete failed, in input order; the two lists together have one entry per
object; and for `[a, b]` with `a` deletable and `b` failing the result is one
deletion for `a` and one error for `b`. -/
theorem deleteObjects_never_short_circuits (d : Deps σ) (s : σ) (bucket : String)
    (objects : List ObjectToDelete) :
    (DeleteObjects d s bucket objects).calls =
      objects.map (fun o => Call.DeleteFile (Join [bucketPath bucket, o.ObjectName])) ∧
    (DeleteObjects d s bucket objects).val.1 =
      ((batchOutcomes d (bucketPath bucket) s objects).filter (fun p => p.2.isNone)).map
        (fun p => ({ ObjectName := p.1.ObjectName } : DeletedObject)) ∧
    (DeleteObjects d s bucket objects).val.2 =
      (batchOutcomes d (bucketPath bucket) s objects).filterMap (fun p => p.2) ∧
    (DeleteObjects d s bucket objects).val.1.length +
      (DeleteObjects d s bucket objects).val.2.length = objects.length ∧
    (∀ (a b : ObjectToDelete) (e : GoError) (s1 : σ), objects = [a, b] →
      d.DeleteFile s (Join [bucketPath bucket, a.ObjectName]) = (none, s1) →
      (d.DeleteFile s1 (Join [bucketPath bucket, b.ObjectName])).1 = some e →
      (DeleteObjects d s bucket objects).val = ([{ ObjectName := a.ObjectName }], [e])) := by
  obtain ⟨h1, h2, h3, -⟩ :=
    deleteObjects_foldl d (bucketPath bucket) objects ⟨s, [], [], []⟩
  simp only [List.nil_append] at h1 h2 h3
  have hv1 : (DeleteObjects d s bucket objects).val.1 =
      (objects.foldl (deleteObjectsStep d (bucketPath bucket)) ⟨s, [], [], []⟩).delObs := rfl
  have hv2 : (DeleteObjects d s bucket objects).val.2 =
      (objects.foldl (deleteObjectsStep d (bucketPath bucket)) ⟨s, [], [], []⟩).errs := rfl
  have hc : (DeleteObjects d s bucket objects).calls =
      (objects.foldl (deleteObjectsStep d (bucketPath bucket)) ⟨s, [], [], []⟩).calls := rfl
  refine ⟨by rw [hc, h3], by rw [hv1, h1], by rw [hv2, h2], ?_, ?_⟩
  · rw [hv1, hv2, h1, h2]
    exact batchOutcomes_split d (bucketPath bucket) objects s
  · intro a b e s1 hobj ha hb
    have hpair : (DeleteObjects d s bucket objects).val =
        ((DeleteObjects d s bucket objects).val.1, (DeleteObjects d s bucket objects).val.2) := rfl
    rw [hpair, hv1, hv2, h1, h2, hobj]
    simp [batchOutcomes, ha, hb]

/-- C3, applied to the sample allocation: deleting `readme.md` (present)
and `missing.md` (absent) from the bucket `docs` gives one deletion and one error. -/
theorem deleteObjects_never_short_circuits_witness :
    (DeleteObjects memAlloc sampleTree "docs"
        [{ ObjectName := "readme.md" }, { ObjectName := "missing.md" }]).val =
      ([{ ObjectName := "readme.md" }], [pathNoExist]) :=
  (deleteObjects_never_short_circuits memAlloc sampleTree "docs"
      [{ ObjectName := "readme.md" }, { ObjectName := "missing.md" }]).2.2.2.2
    { ObjectName := "readme.md" } { ObjectName := "missing.md" } pathNoExist
    [dirNode "/" "/" 120 1000, dirNode "/docs" "docs" 120 2000,
      fileNode "/notes.txt" "notes.txt" 7 "def456" "text/plain" 4000]
    rfl (by decide) (by decide)

/-- The test `strings.HasSuffix(s, "/")` holds exactly when the last character
of `s` is `/`. -/
theorem hasSuffix_slash_iff (s : String) :
    HasSuffix s "/" = true ↔ s.data.getLast? = some '/' := by
  have hlen : ("/" : String).data = ['/'] := rfl
  unfold HasSuffix
  rw [hlen]
  rcases List.eq_nil_or_concat s.data with h | ⟨l, c, h⟩
  · rw [h]; simp
  · rw [h]
    simp [List.getLast?_append]

/-- The objects `listObjectsLoop` appends are those of the entries that are not
directories, in order. -/
theorem listObjectsLoop_eq (d : Deps σ) (bucket : String) (refs : List ORef) :
    ∀ objects : List ObjectInfo,
      listObjectsLoop d bucket refs objects =
        objects ++ (refs.filter (fun r => decide (r.RefType ≠ d.dirType))).map
          (fun r => ({ Bucket := bucket, Name := r.Name, ModTime := ToTime r.UpdatedAt,
                       Size := r.ActualFileSize, IsDir := false, ContentType := r.MimeType,
                       ETag := r.ActualFileHash, StorageClass := "STANDARD" } : ObjectInfo)) := by
  induction refs with
  | nil => intro objects; simp [listObjectsLoop]
  | cons r rs ih =>
    intro objects
    by_cases h : r.RefType = d.dirType
    · simp [listObjectsLoop, h, ih]
    · simp [listObjectsLoop, h, ih]

/-- C4: when the path computed by `ListObjects` resolves to a file node, the
call succeeds with `IsTruncated = false`, no common prefixes and an empty next
marker, and the only backend call is the resolve (the backend list is never
called).  The object list is empty if the prefix ends with `/`; otherwise it
has exactly one entry, not a directory, whose size, content type, ETag and
modification time are the node's `ActualFileSize`, `MimeType`,
`ActualFileHash` and `UpdatedAt`, in the requested bucket. -/
theorem listObjects_file_node (d : Deps σ) (now : Time) (s s1 : σ)
    (bucket pfx marker delimiter : String) (maxKeys : Int) (ref : ORef)
    (hres : d.getSingleRegularRef s (listObjectsPath bucket pfx) = (.ok ref, s1))
    (hfile : ref.RefType = d.fileType) :
    ∃ page, (ListObjects d now s bucket pfx marker delimiter maxKeys).val = .ok page ∧
      page.IsTruncated = false ∧ page.Prefixes = [] ∧ page.NextMarker = "" ∧
      (ListObjects d now s bucket pfx marker delimiter maxKeys).calls =
        [.getSingleRegularRef (listObjectsPath bucket pfx)] ∧
      (pfx.data.getLast? = some '/' → page.Objects = []) ∧
      (pfx.data.getLast? ≠ some '/' →
        ∃ o, page.Objects = [o] ∧ o.IsDir = false ∧ o.Size = ref.ActualFileSize ∧
          o.ContentType = ref.MimeType ∧ o.ETag = ref.ActualFileHash ∧
          o.ModTime = ToTime ref.UpdatedAt ∧ o.Bucket = bucket) := by
  by_cases hsuf : HasSuffix pfx "/" = true
  · have hl := (hasSuffix_slash_iff pfx).mp hsuf
    simp [ListObjects, hres, hfile, hsuf, hl]
  · have hl : pfx.data.getLast? ≠ some '/' := fun h => hsuf ((hasSuffix_slash_iff pfx).mpr h)
    simp [ListObjects, hres, hfile, hsuf, hl]

/-- C4, applied to the sample allocation: listing the bucket `docs` with the
prefix `readme.md` gives the single object for the file `/docs/readme.md`. -/
theorem listObjects_file_node_witness :
    ∃ page, (ListObjects memAlloc ⟨0⟩ sampleTree "docs" "readme.md" "" "" 1000).val = .ok page ∧
      page.IsTruncated = false ∧ page.Prefixes = [] ∧ page.NextMarker = "" ∧
      (ListObjects memAlloc ⟨0⟩ sampleTree "docs" "readme.md" "" "" 1000).calls =
        [.getSingleRegularRef (listObjectsPath "docs" "readme.md")] ∧
      (("readme.md" : String).data.getLast? = some '/' → page.Objects = []) ∧
      (("readme.md" : String).data.getLast? ≠ some '/' →
        ∃ o, page.Objects = [o] ∧ o.IsDir = false ∧
          o.Size = (fileNode "/docs/readme.md" "readme.md" 120 "abc123" "text/markdown"
            3000).ActualFileSize ∧
          o.ContentType = (fileNode "/docs/readme.md" "readme.md" 120 "abc123" "text/markdown"
            3000).MimeType ∧
          o.ETag = (fileNode "/docs/readme.md" "readme.md" 120 "abc123" "text/markdown"
            3000).ActualFileHash ∧
          o.ModTime = ToTime (fileNode "/docs/readme.md" "readme.md" 120 "abc123"
            "text/markdown" 3000).UpdatedAt ∧
          o.Bucket = "docs") :=
  listObjects_file_node memAlloc ⟨0⟩ sampleTree sampleTree "docs" "readme.md" "" "" 1000
    (fileNode "/docs/readme.md" "readme.md" 120 "abc123" "text/markdown" 3000) rfl rfl

/-- C5: when the path computed by `ListObjects` resolves to a directory node
and the backend list call succeeds, the objects of the page are the entries of
the backend page that are not directories, in the order of the backend, one
object per entry, none a directory, each with the name, `ActualFileSize`,
`MimeType`, `ActualFileHash` and `UpdatedAt` of its entry; `IsTruncated`,
`NextMarker` and `Prefixes` are the values the backend returned. -/
theorem listObjects_directory_node (d : Deps σ) (now : Time) (s s1 s2 : σ)
    (bucket pfx marker delimiter : String) (maxKeys : Int) (ref : ORef)
    (refs : List ORef) (isTruncated : Bool) (nextMarker : String) (prefixes : List String)
    (hkinds : d.dirType ≠ d.fileType)
    (hres : d.getSingleRegularRef s (listObjectsPath bucket pfx) = (.ok ref, s1))
    (hdir : ref.RefType = d.dirType)
    (hlist : d.listRegularRefs s1 (listObjectsPath bucket pfx) marker
        (if bucket = rootBucketName then d.fileType else "") maxKeys (decide (delimiter ≠ "")) =
      (.ok (refs, isTruncated, nextMarker, prefixes), s2)) :
    (ListObjects d now s bucket pfx marker delimiter maxKeys).val =
      .ok { IsTruncated := isTruncated, NextMarker := nextMarker, Prefixes := prefixes,
            Objects := (refs.filter (fun r => decide (r.RefType ≠ d.dirType))).map
              (fun r => { Bucket := bucket, Name := r.Name, Size := r.ActualFileSize,
                          ContentType := r.MimeType, ETag := r.ActualFileHash,
                          ModTime := ToTime r.UpdatedAt, IsDir := false,
                          StorageClass := "STANDARD" }) } := by
  have hnf : ¬ ref.RefType = d.fileType := fun h => hkinds (hdir.symm.trans h)
  have hloop := listObjectsLoop_eq d bucket refs []
  simp only [List.nil_append] at hloop
  simp only [ListObjects, hres, hnf, if_false, hlist, hloop]

/-- C5, applied to the sample allocation: listing the bucket `docs` returns
the file `readme.md`, size 120, and the flags of the backend page. -/
theorem listObjects_directory_node_witness :
    (ListObjects memAlloc ⟨0⟩ sampleTree "docs" "" "" "" 1000).val =
      .ok { IsTruncated := false, NextMarker := "", Prefixes := [],
            Objects := [{ Bucket := "docs", Name := "readme.md", Size := 120,
                          ContentType := "text/markdown", ETag := "abc123",
                          ModTime := ToTime 3000, IsDir := false,
                          StorageClass := "STANDARD" }] } :=
  listObjects_directory_node memAlloc ⟨0⟩ sampleTree sampleTree sampleTree "docs" "" "" "" 1000
    (dirNode "/docs" "docs" 120 2000)
    [fileNode "/docs/readme.md" "readme.md" 120 "abc123" "text/markdown" 3000]
    false "" [] (by decide) rfl rfl rfl

/-- C6: whenever `ListBuckets` returns without error, the first bucket of the
result is named `root`.  When resolving `/` reports not-found, the call
succeeds with exactly the root bucket (created 30 hours before now) after the
single resolve call; when `/` resolves and the root directories are listed,
the result is the root bucket, with the creation time of the root node,
followed by one bucket per listed directory, in order, with the name and
creation time of that directory. -/
theorem listBuckets_root_first (d : Deps σ) (now : Time) (s : σ) :
    (∀ buckets, (ListBuckets d now s).val = .ok buckets →
      (buckets.head?).map (fun b => b.Name) = some "root") ∧
    (∀ err s1, d.getSingleRegularRef s rootPath = (.error err, s1) →
      d.isPathNoExistError err = true →
      (ListBuckets d now s).val =
        .ok [{ Name := "root", Created := now.Add (-Hour * 30) }] ∧
      (ListBuckets d now s).calls = [.getSingleRegularRef "/"]) ∧
    (∀ rootRef s1 dirRefs s2, d.getSingleRegularRef s rootPath = (.ok rootRef, s1) →
      d.listRootDir s1 "d" = (.ok dirRefs, s2) →
      (ListBuckets d now s).val =
        .ok ({ Name := "root", Created := ToTime rootRef.CreatedAt } ::
          dirRefs.map (fun r => { Name := r.Name, Created := ToTime r.CreatedAt }))) := by
  refine ⟨?_, ?_, ?_⟩
  · intro buckets
    unfold ListBuckets
    rcases hres : d.getSingleRegularRef s rootPath with ⟨res, s1⟩
    cases res with
    | error err =>
      by_cases hne : d.isPathNoExistError err = true
      · simp only [hne, if_true]
        intro h
        injection h with h
        subst h
        rfl
      · simp [hne]
    | ok rootRef =>
      rcases hl : d.listRootDir s1 "d" with ⟨lres, s2⟩
      cases lres with
      | error err => simp [hl]
      | ok dirRefs =>
        simp only [hl]
        intro h
        injection h with h
        subst h
        rfl
  · intro err s1 hres hne
    simp only [ListBuckets, hres, hne, if_true]
    exact ⟨rfl, rfl⟩
  · intro rootRef s1 dirRefs s2 hres hl
    simp [ListBuckets, hres, hl, rootBucketName]

/-- C6, applied to the sample allocation: the buckets are `root` and `docs`. -/
theorem listBuckets_root_first_witness :
    (ListBuckets memAlloc ⟨0⟩ sampleTree).val =
      .ok [{ Name := "root", Created := ToTime 1000 }, { Name := "docs", Created := ToTime 2000 }] :=
  (listBuckets_root_first memAlloc ⟨0⟩ sampleTree).2.2 (dirNode "/" "/" 120 1000) sampleTree
    [dirNode "/docs" "docs" 120 2000] sampleTree rfl rfl

/-- What the three object operations do when the resolver reports that the
path does not exist, for every backend: `GetObjectInfo` and `GetObjectNInfo`
fail with `ObjectNotFound` for the bucket and object, `DeleteObject` fails
with the error of the resolver as it is; each of them issues the resolve call
only (no reader is opened, no delete is issued). -/
theorem not_found_at_object_path (d : Deps σ) (now : Time) (s s1 : σ) (bucket object : String)
    (rs : Option HTTPRangeSpec) (err : GoError)
    (hres : d.getSingleRegularRef s (objectPath bucket object) = (.error err, s1))
    (hne : d.isPathNoExistError err = true) :
    (GetObjectInfo d now s bucket object).val = .error (.ObjectNotFound bucket object) ∧
    (GetObjectInfo d now s bucket object).calls =
      [.getSingleRegularRef (objectPath bucket object)] ∧
    (GetObjectNInfo d s bucket object rs).val = .error (.ObjectNotFound bucket object) ∧
    (GetObjectNInfo d s bucket object rs).calls =
      [.getSingleRegularRef (objectPath bucket object)] ∧
    (DeleteObject d now s bucket object).val = .error err ∧
    (DeleteObject d now s bucket object).calls =
      [.getSingleRegularRef (objectPath bucket object)] := by
  unfold objectPath at hres
  simp only [GetObjectInfo, GetObjectNInfo, DeleteObject, hres, hne, if_true, objectPath,
    and_self]

/-- C7: on the sample allocation the path `/docs/missing.md` does not exist and
the resolver reports the path-does-not-exist error.  `GetObjectInfo` and
`GetObjectNInfo` fail with `ObjectNotFound`, but `DeleteObject` fails with the
raw error of the resolver, which is not `ObjectNotFound`. -/
theorem deleteObject_not_found_is_raw :
    memAlloc.getSingleRegularRef sampleTree (objectPath "docs" "missing.md") =
      (.error pathNoExist, sampleTree) ∧
    memAlloc.isPathNoExistError pathNoExist = true ∧
    (GetObjectInfo memAlloc ⟨0⟩ sampleTree "docs" "missing.md").val =
      .error (.ObjectNotFound "docs" "missing.md") ∧
    (GetObjectNInfo memAlloc sampleTree "docs" "missing.md" none).val =
      .error (.ObjectNotFound "docs" "missing.md") ∧
    (DeleteObject memAlloc ⟨0⟩ sampleTree "docs" "missing.md").val = .error pathNoExist ∧
    (DeleteObject memAlloc ⟨0⟩ sampleTree "docs" "missing.md").val ≠
      .error (.ObjectNotFound "docs" "missing.md") := by
  have hd : (DeleteObject memAlloc ⟨0⟩ sampleTree "docs" "missing.md").val =
      .error pathNoExist := rfl
  refine ⟨rfl, rfl, rfl, rfl, hd, ?_⟩
  rw [hd]
  intro h
  injection h with h
  exact absurd h (by decide)

/-- What `GetBucketInfo` returns for the root bucket, for every backend: the
bucket named `root` when the resolver reports that `/` does not exist, and the
bucket named after the resolved node when `/` resolves. -/
theorem getBucketInfo_root (d : Deps σ) (s : σ) :
    (∀ err s1, d.getSingleRegularRef s rootPath = (.error err, s1) →
      d.isPathNoExistError err = true →
      (GetBucketInfo d s "root").val = .ok { Name := "root" }) ∧
    (∀ ref s1, d.getSingleRegularRef s rootPath = (.ok ref, s1) →
      (GetBucketInfo d s "root").val =
        .ok { Name := ref.Name, Created := ToTime ref.CreatedAt }) := by
  constructor
  · intro err s1 hres hne
    have hb : ("root" : String) = rootBucketName := rfl
    simp only [GetBucketInfo, hb, if_true, hres, hne]
  · intro ref s1 hres
    have hb : ("root" : String) = rootBucketName := rfl
    simp only [GetBucketInfo, hb, if_true, hres]

/-- C9: on the sample allocation `/` resolves to the root node, whose name is
`/`; `GetBucketInfo` for the bucket `root` succeeds and the name of the bucket
it returns is `/`, not `root`. -/
theorem getBucketInfo_root_name_from_node :
    memAlloc.getSingleRegularRef sampleTree rootPath =
      (.ok (dirNode "/" "/" 120 1000), sampleTree) ∧
    (GetBucketInfo memAlloc sampleTree "root").val =
      .ok { Name := "/", Created := ToTime 1000 } ∧
    ({ Name := "/", Created := ToTime 1000 } : BucketInfo).Name ≠ "root" :=
  ⟨rfl, rfl, by decide⟩

/-- A page returned by `ListObjects` either has `IsTruncated = false` and an
empty `NextMarker`, or has the two values of a successful backend list call. -/
theorem listObjects_flags (d : Deps σ) (now : Time) (s : σ)
    (bucket pfx marker delimiter : String) (maxKeys : Int) (page : ListObjectsInfo)
    (hpage : (ListObjects d now s bucket pfx marker delimiter maxKeys).val = .ok page) :
    (page.IsTruncated = false ∧ page.NextMarker = "") ∨
    ∃ s1 s2 refs prefixes,
      d.listRegularRefs s1 (listObjectsPath bucket pfx) marker
          (if bucket = rootBucketName then d.fileType else "") maxKeys
          (decide (delimiter ≠ "")) =
        (.ok (refs, page.IsTruncated, page.NextMarker, prefixes), s2) := by
  rcases hres : d.getSingleRegularRef s (listObjectsPath bucket pfx) with ⟨res, s1⟩
  simp only [ListObjects, hres] at hpage
  cases res with
  | error err =>
    by_cases hne : d.isPathNoExistError err = true
    · simp only [hne, if_true] at hpage
      injection hpage with hpage
      subst hpage
      exact Or.inl ⟨rfl, rfl⟩
    · simp [hne] at hpage
  | ok ref =>
    by_cases hfile : ref.RefType = d.fileType
    · by_cases hsuf : HasSuffix pfx "/" = true
      · simp only [hfile, hsuf, if_true] at hpage
        injection hpage with hpage
        subst hpage
        exact Or.inl ⟨rfl, rfl⟩
      · simp only [hfile, hsuf, if_true] at hpage
        injection hpage with hpage
        subst hpage
        exact Or.inl ⟨rfl, rfl⟩
    · simp only [hfile, if_false] at hpage
      rcases hlist : d.listRegularRefs s1 (listObjectsPath bucket pfx) marker
          (if bucket = rootBucketName then d.fileType else "") maxKeys
          (decide (delimiter ≠ "")) with ⟨lres, s2⟩
      simp only [hlist] at hpage
      cases lres with
      | error err =>
        by_cases hroot : (listObjectsPath bucket pfx = rootPath && d.isPathNoExistError err) = true
        · simp only [hroot, if_true] at hpage
          injection hpage with hpage
          subst hpage
          exact Or.inl ⟨rfl, rfl⟩
        · simp [hroot] at hpage
      | ok reply =>
        obtain ⟨refs, isTruncated, nextMarker, prefixes⟩ := reply
        simp only at hpage
        injection hpage with hpage
        subst hpage
        exact Or.inr ⟨s1, s2, refs, prefixes, hlist⟩

/-- C8, as stated, fails: with a backend whose list call reports a truncated
page without a marker, `ListObjects` returns a page with `IsTruncated = true`
and an empty `NextMarker`. -/
theorem listObjects_truncated_without_marker :
    ∃ page, (ListObjects memAllocNoMarker ⟨0⟩ sampleTree "docs" "" "" "" 1000).val = .ok page ∧
      ¬ (page.IsTruncated = true ↔ page.NextMarker ≠ "") :=
  ⟨{ IsTruncated := true, NextMarker := "", Objects := [], Prefixes := [] }, rfl, by decide⟩

/-- C8, amended: a page returned by `ListObjects` without error either has
`IsTruncated = false` and an empty `NextMarker`, or carries the two values of a
successful backend list call unchanged.  Hence, for a backend whose successful
list calls satisfy `isTruncated = true ↔ nextMarker ≠ ""`, every page returned
by `ListObjects` satisfies `IsTruncated = true ↔ NextMarker ≠ ""`, and every
page returned by `ListObjectsV2` satisfies it for `NextContinuationToken`. -/
theorem listObjects_page_invariant (d : Deps σ) :
    (∀ now s bucket pfx marker delimiter maxKeys page,
      (ListObjects d now s bucket pfx marker delimiter maxKeys).val = .ok page →
      (page.IsTruncated = false ∧ page.NextMarker = "") ∨
      ∃ s1 s2 refs prefixes,
        d.listRegularRefs s1 (listObjectsPath bucket pfx) marker
            (if bucket = rootBucketName then d.fileType else "") maxKeys
            (decide (delimiter ≠ "")) =
          (.ok (refs, page.IsTruncated, page.NextMarker, prefixes), s2)) ∧
    ((∀ s1 p m t k dl refs tr nm pf s2,
        d.listRegularRefs s1 p m t k dl = (.ok (refs, tr, nm, pf), s2) →
        (tr = true ↔ nm ≠ "")) →
      (∀ now s bucket pfx marker delimiter maxKeys page,
        (ListObjects d now s bucket pfx marker delimiter maxKeys).val = .ok page →
        (page.IsTruncated = true ↔ page.NextMarker ≠ "")) ∧
      (∀ now s bucket pfx token delimiter maxKeys startAfter page,
        (ListObjectsV2 d now s bucket pfx token delimiter maxKeys startAfter).val = .ok page →
        (page.IsTruncated = true ↔ page.NextContinuationToken ≠ ""))) := by
  have hv1 : (∀ s1 p m t k dl refs tr nm pf s2,
        d.listRegularRefs s1 p m t k dl = (.ok (refs, tr, nm, pf), s2) →
        (tr = true ↔ nm ≠ "")) →
      ∀ now s bucket pfx marker delimiter maxKeys page,
        (ListObjects d now s bucket pfx marker delimiter maxKeys).val = .ok page →
        (page.IsTruncated = true ↔ page.NextMarker ≠ "") := by
    intro hback now s bucket pfx marker delimiter maxKeys page hpage
    rcases listObjects_flags d now s bucket pfx marker delimiter maxKeys page hpage with
      ⟨h1, h2⟩ | ⟨s1, s2, refs, prefixes, hlist⟩
    · rw [h1, h2]; simp
    · exact hback _ _ _ _ _ _ _ _ _ _ _ hlist
  refine ⟨fun now s bucket pfx marker delimiter maxKeys page hpage =>
    listObjects_flags d now s bucket pfx marker delimiter maxKeys page hpage, fun hback =>
    ⟨hv1 hback, ?_⟩⟩
  intro now s bucket pfx token delimiter maxKeys startAfter page hpage
  unfold ListObjectsV2 at hpage
  rcases hr : (ListObjects d now s bucket pfx (if token = "" then startAfter else token)
      delimiter maxKeys).val with err | resultV1
  · simp [hr] at hpage
  · simp only [hr] at hpage
    injection hpage with hpage
    subst hpage
    exact hv1 hback now s bucket pfx _ delimiter maxKeys resultV1 hr

/-- C8 amended, applied to the sample allocation, whose list calls report
untruncated pages without a marker: the page of the bucket `docs` satisfies
the invariant. -/
theorem listObjects_page_invariant_witness :
    ∃ page, (ListObjects memAlloc ⟨0⟩ sampleTree "docs" "" "" "" 1000).val = .ok page ∧
      (page.IsTruncated = true ↔ page.NextMarker ≠ "") :=
  ⟨_, rfl,
    ((listObjects_page_invariant memAlloc).2
      (fun s1 p m t k dl refs tr nm pf s2 h => by
        have h1 : (false, "") = (tr, nm) := by
          have h2 := congrArg (fun r => match r.1 with
            | .ok (_, a, b, _) => (a, b)
            | .error _ => (false, "")) h
          exact h2
        injection h1 with ha hb
        subst ha
        subst hb
        simp)).1 ⟨0⟩ sampleTree "docs" "" "" "" 1000 _ rfl⟩

/-- The first backend call of `ListObjects` is the resolve of
`listObjectsPath bucket pfx`, for every backend and every input. -/
theorem listObjects_first_call (d : Deps σ) (now : Time) (s : σ)
    (bucket pfx marker delimiter : String) (maxKeys : Int) :
    (ListObjects d now s bucket pfx marker delimiter maxKeys).calls.head? =
      some (.getSingleRegularRef (listObjectsPath bucket pfx)) := by
  rcases hres : d.getSingleRegularRef s (listObjectsPath bucket pfx) with ⟨res, s1⟩
  simp only [ListObjects, hres]
  cases res with
  | error err => by_cases hne : d.isPathNoExistError err = true <;> simp [hne]
  | ok ref =>
    by_cases hfile : ref.RefType = d.fileType
    · by_cases hsuf : HasSuffix pfx "/" = true <;> simp [hfile, hsuf]
    · rcases hlist : d.listRegularRefs s1 (listObjectsPath bucket pfx) marker
          (if bucket = rootBucketName then d.fileType else "") maxKeys
          (decide (delimiter ≠ "")) with ⟨lres, s2⟩
      simp only [hfile, if_false, hlist]
      cases lres with
      | error err =>
        by_cases hroot :
            (decide (listObjectsPath bucket pfx = rootPath) && d.isPathNoExistError err) = true
        · simp only [hroot, if_true, List.head?_cons]
        · simp [hroot]
      | ok reply => simp

/-! ### `Clean` never leaves a trailing separator, except for the root -/

/-- One more iteration than the length of the unread input changes nothing:
the bound on the iterations of `cleanLoop` is never what stops the loop. -/
theorem cleanLoop_fuel_succ (rooted : Bool) :
    ∀ (fuel : Nat) (path rout : List Char) (dotdot : Nat), path.length ≤ fuel →
      cleanLoop rooted (fuel + 1) path rout dotdot = cleanLoop rooted fuel path rout dotdot := by
  intro fuel
  induction fuel with
  | zero =>
    intro path rout dotdot h
    have hp : path = [] := List.length_eq_zero.mp (Nat.le_zero.mp h)
    subst hp
    simp [cleanLoop]
  | succ n ih =>
    intro path rout dotdot h
    cases path with
    | nil => simp [cleanLoop]
    | cons c rest =>
      have hrest : rest.length ≤ n := by simpa using h
      have htail : rest.tail.length ≤ n := by
        rw [List.length_tail]; omega
      rw [cleanLoop]
      conv_rhs => rw [cleanLoop]
      simp only
      by_cases hc : IsPathSeparator c = true
      · simp only [hc, if_true]
        exact ih rest rout dotdot hrest
      · have hdrop : ((c :: rest).dropWhile (fun x => !IsPathSeparator x)).length ≤ n := by
          have hsuf := List.dropWhile_suffix (l := rest) (fun x => !IsPathSeparator x)
          have hle := hsuf.length_le
          have hcons : (c :: rest).dropWhile (fun x => !IsPathSeparator x) =
              rest.dropWhile (fun x => !IsPathSeparator x) := by
            rw [List.dropWhile_cons]
            simp [hc]
          rw [hcons]
          omega
        simp only [hc, if_false]
        split_ifs <;> first
          | exact ih _ _ _ hrest
          | exact ih _ _ _ htail
          | exact ih _ _ _ hdrop

/-- The loop of `Clean` run with any bound of at least the length of the unread
input gives the result it gives with exactly that length. -/
theorem cleanLoop_fuel (rooted : Bool) (path rout : List Char) (dotdot : Nat) :
    ∀ k : Nat, cleanLoop rooted (path.length + k) path rout dotdot =
      cleanLoop rooted path.length path rout dotdot := by
  intro k
  induction k with
  | zero => rfl
  | succ k ih =>
    rw [← ih, ← Nat.add_assoc]
    exact cleanLoop_fuel_succ rooted (path.length + k) path rout dotdot (Nat.le_add_right _ _)

/-- The buffer below `dotdot` is not affected by what is written above it. -/
theorem drop_base (pre rout : List Char) (dotdot : Nat) (h : dotdot ≤ rout.length) :
    (pre ++ rout).drop ((pre ++ rout).length - dotdot) = rout.drop (rout.length - dotdot) := by
  have hlen : (pre ++ rout).length - dotdot = pre.length + (rout.length - dotdot) := by
    rw [List.length_append]; omega
  rw [hlen, List.drop_append]

/-- Backtracking over a `..` element keeps the invariant of the loop. -/
theorem backtrack_inv (rooted : Bool) (dotdot : Nat) :
    ∀ rout : List Char, NoDoubleSlash rout → dotdot < rout.length →
      NoTrailingSlash rooted (rout.drop (rout.length - dotdot)) →
      CleanInv rooted (backtrack dotdot rout) dotdot := by
  intro rout
  induction rout with
  | nil => intro _ h; simp at h
  | cons c rout ih =>
    intro hq hlen hbase
    have hq' : NoDoubleSlash rout := List.Chain'.tail hq
    have hle : dotdot ≤ rout.length := by
      simp only [List.length_cons] at hlen; omega
    have hbase' : NoTrailingSlash rooted (rout.drop (rout.length - dotdot)) := by
      have h := drop_base [c] rout dotdot hle
      simp only [List.singleton_append] at h
      rw [← h]; exact hbase
    unfold backtrack
    by_cases hcond : (decide (rout.length > dotdot) && !IsPathSeparator c) = true
    · rw [if_pos hcond]
      have hlt : dotdot < rout.length := by
        simp only [Bool.and_eq_true, decide_eq_true_eq] at hcond
        exact hcond.1
      exact ih hq' hlt hbase'
    · rw [if_neg hcond]
      refine ⟨?_, hq', hle, hbase'⟩
      by_cases hl : rout.length > dotdot
      · have hc : c = '/' := by
          simpa [hl, IsPathSeparator] using hcond
        intro hhead
        cases rout with
        | nil => simp at hhead
        | cons b t =>
          simp only [List.head?_cons, Option.some.injEq] at hhead
          exact absurd ⟨hc, hhead⟩ (List.chain'_cons.mp hq).1
      · have h0 : rout.length - dotdot = 0 := by omega
        rw [h0, List.drop_zero] at hbase'
        exact hbase'

/-- A list without separators has no doubled separator. -/
theorem noDoubleSlash_of_no_slash :
    ∀ l : List Char, (∀ x ∈ l, x ≠ '/') → NoDoubleSlash l := by
  intro l
  induction l with
  | nil => intro _; exact List.chain'_nil
  | cons a t ih =>
    intro h
    refine List.Chain'.cons' (ih (fun x hx => h x (List.mem_cons_of_mem a hx))) ?_
    intro y _ hay
    exact h a (List.mem_cons_self a t) hay.1

/-- Writing a path element (a non-empty run of bytes without a separator),
directly or after a separator, keeps the invariant of the loop. -/
theorem elem_inv (rooted : Bool) (rout elem : List Char) (dotdot : Nat)
    (hinv : CleanInv rooted rout dotdot) (hne : elem ≠ [])
    (hno : ∀ x ∈ elem, x ≠ '/') :
    CleanInv rooted (elem.reverse ++ rout) dotdot ∧
    (rout.head? ≠ some '/' → CleanInv rooted (elem.reverse ++ '/' :: rout) dotdot) := by
  obtain ⟨-, hq, hle, hbase⟩ := hinv
  have hrev_ne : elem.reverse ≠ [] := by simpa using hne
  have hno_rev : ∀ x ∈ elem.reverse, x ≠ '/' := fun x hx => hno x (List.mem_reverse.mp hx)
  have hhead : ∀ t : List Char, (elem.reverse ++ t).head? ≠ some '/' := by
    intro t
    cases hr : elem.reverse with
    | nil => exact absurd hr hrev_ne
    | cons a u =>
      have ha : a ≠ '/' := hno_rev a (by rw [hr]; exact List.mem_cons_self a u)
      simpa using ha
  have hchain : ∀ t : List Char, NoDoubleSlash t → NoDoubleSlash (elem.reverse ++ t) := by
    intro t ht
    refine List.Chain'.append (noDoubleSlash_of_no_slash _ hno_rev) ht ?_
    intro x hx y _ hxy
    exact hno_rev x (List.mem_of_mem_getLast? hx) hxy.1
  refine ⟨⟨fun h => absurd h (hhead rout), hchain rout hq, ?_, ?_⟩, fun hnh =>
    ⟨fun h => absurd h (hhead _), hchain _ ?_, ?_, ?_⟩⟩
  · rw [List.length_append]; omega
  · rw [drop_base _ rout dotdot hle]; exact hbase
  · refine List.Chain'.cons' hq ?_
    intro y hy hxy
    exact hnh (by rw [Option.mem_def] at hy; rw [hy, hxy.2])
  · simp only [List.length_append, List.length_cons]; omega
  · have h := drop_base (elem.reverse ++ ['/']) rout dotdot hle
    simp only [List.append_assoc, List.singleton_append] at h
    rw [h]; exact hbase

/-- The loop of `Clean` keeps its invariant, so the buffer it returns has no
trailing separator (unless it is the root alone). -/
theorem cleanLoop_inv (rooted : Bool) :
    ∀ (fuel : Nat) (path rout : List Char) (dotdot : Nat), CleanInv rooted rout dotdot →
      NoTrailingSlash rooted (cleanLoop rooted fuel path rout dotdot) := by
  intro fuel
  induction fuel with
  | zero =>
    intro path rout dotdot h
    simpa [cleanLoop] using h.1
  | succ n ih =>
    intro path rout dotdot h
    cases path with
    | nil => simpa [cleanLoop] using h.1
    | cons c rest =>
      rw [cleanLoop]
      simp only
      by_cases hc : IsPathSeparator c = true
      · simp only [hc, if_true]
        exact ih rest rout dotdot h
      · simp only [hc, if_false]
        have hcne : c ≠ '/' := by simpa [IsPathSeparator] using hc
        by_cases hdot : (c == '.' && (rest.isEmpty ||
            (rest.head?.map IsPathSeparator == some true))) = true
        · rw [if_pos hdot]
          exact ih rest rout dotdot h
        · rw [if_neg hdot]
          by_cases hdd : (c == '.' && rest.head? == some '.' &&
              (rest.tail.isEmpty || (rest.tail.head?.map IsPathSeparator == some true))) = true
          · rw [if_pos hdd]
            by_cases hback : rout.length > dotdot
            · rw [if_pos hback]
              exact ih _ _ _ (backtrack_inv rooted dotdot rout h.2.1 hback h.2.2.2)
            · rw [if_neg hback]
              by_cases hroot : (!rooted) = true
              · rw [if_pos hroot]
                have hr : rooted = false := by simpa using hroot
                apply ih
                have hnh : rout.head? ≠ some '/' := by
                  intro hh
                  have := (h.1 hh).1
                  rw [hr] at this
                  exact absurd this (by decide)
                have hq1 : NoDoubleSlash (if rout.length > 0 then '/' :: rout else rout) := by
                  split_ifs
                  · refine List.Chain'.cons' h.2.1 ?_
                    intro y hy hxy
                    exact hnh (by rw [Option.mem_def] at hy; rw [hy, hxy.2])
                  · exact h.2.1
                have hq2 : NoDoubleSlash
                    ('.' :: '.' :: (if rout.length > 0 then '/' :: rout else rout)) := by
                  refine List.Chain'.cons' (List.Chain'.cons' hq1 ?_) ?_
                  · intro y _ hxy
                    exact absurd hxy.1 (by decide)
                  · intro y _ hxy
                    exact absurd hxy.1 (by decide)
                have hp2 : ∀ t : List Char, NoTrailingSlash rooted ('.' :: '.' :: t) := by
                  intro t hh
                  simp only [List.head?_cons, Option.some.injEq] at hh
                  exact absurd hh (by decide)
                refine ⟨hp2 _, hq2, le_refl _, ?_⟩
                rw [Nat.sub_self, List.drop_zero]
                exact hp2 _
              · rw [if_neg hroot]
                exact ih _ _ _ h
          · rw [if_neg hdd]
            apply ih
            have htw : (c :: rest).takeWhile (fun x => !IsPathSeparator x) =
                c :: rest.takeWhile (fun x => !IsPathSeparator x) := by
              rw [List.takeWhile_cons]
              simp [hc]
            have hne : (c :: rest).takeWhile (fun x => !IsPathSeparator x) ≠ [] := by
              rw [htw]; exact List.cons_ne_nil _ _
            have hno : ∀ x ∈ (c :: rest).takeWhile (fun x => !IsPathSeparator x), x ≠ '/' := by
              intro x hx
              have := List.mem_takeWhile_imp hx
              simpa [IsPathSeparator] using this
            obtain ⟨h1, h2⟩ := elem_inv rooted rout _ dotdot h hne hno
            split_ifs with hsl
            · apply h2
              intro hh
              obtain ⟨hr, hrout⟩ := h.1 hh
              rw [hr, hrout] at hsl
              simp at hsl
            · exact h1

/-- `filepath.Clean` returns a path that does not end with a separator, unless
it returns the root `/`. -/
theorem Clean_no_trailing_slash (path : String) :
    (Clean path).data.getLast? = some '/' → Clean path = "/" := by
  unfold Clean
  by_cases hempty : path.data.isEmpty = true
  · simp only [hempty, if_true]
    intro h
    exact absurd h (by decide)
  · simp only [hempty]
    have key : ∀ (rooted : Bool) (rout : List Char), NoTrailingSlash rooted rout →
        (String.mk (if rout.length == 0 then ['.'] else rout).reverse).data.getLast? = some '/' →
        String.mk (if rout.length == 0 then ['.'] else rout).reverse = "/" := by
      intro rooted rout hinv hlast
      by_cases hz : (rout.length == 0) = true
      · rw [if_pos hz] at hlast
        exact absurd hlast (by decide)
      · rw [if_neg hz] at hlast ⊢
        simp only [List.getLast?_reverse] at hlast
        rw [(hinv hlast).2]
        rfl
    have hroot : CleanInv true ['/'] 1 :=
      ⟨fun _ => ⟨rfl, rfl⟩, List.chain'_singleton _, le_refl _, fun _ => ⟨rfl, rfl⟩⟩
    have hrel : CleanInv false [] 0 :=
      ⟨fun h => absurd h (by simp), List.chain'_nil, le_refl _, fun h => absurd h (by simp)⟩
    by_cases hr : (path.data.head?.map IsPathSeparator == some true) = true
    · simp only [hr, if_true]
      exact key true _ (cleanLoop_inv true _ _ _ _ hroot)
    · have hf : (path.data.head?.map IsPathSeparator == some true) = false := by
        simpa using hr
      simp only [hf, Bool.false_eq_true, if_false]
      exact key false _ (cleanLoop_inv false _ _ _ _ hrel)

/-- What holds of C10 for every bucket and prefix.  When the prefix ends with
`/`, the path that `ListObjects` resolves is the cleaned join followed by `/`:
it ends with `/`, and the byte before that `/` is a `/` as well exactly when
the cleaned join is the root `/`, in which case the path is `//`.  When the
prefix does not end with `/`, the path is the join of `/`, the bucket (left out
for the root bucket) and the prefix. -/
theorem listObjectsPath_trailing (bucket pfx : String) :
    (pfx.data.getLast? = some '/' →
      (listObjectsPath bucket pfx).data.getLast? = some '/' ∧
      ((listObjectsPath bucket pfx).data.dropLast.getLast? = some '/' ↔
        Clean (objectPath bucket pfx) = "/") ∧
      (Clean (objectPath bucket pfx) = "/" → listObjectsPath bucket pfx = "//")) ∧
    (pfx.data.getLast? ≠ some '/' → listObjectsPath bucket pfx = objectPath bucket pfx) := by
  constructor
  · intro hl
    have hsuf := (hasSuffix_slash_iff pfx).mpr hl
    have hp : listObjectsPath bucket pfx = Clean (objectPath bucket pfx) ++ "/" := by
      simp only [listObjectsPath, objectPath, hsuf, if_true]
    have hdata : (listObjectsPath bucket pfx).data =
        (Clean (objectPath bucket pfx)).data ++ ['/'] := by
      rw [hp]; rfl
    refine ⟨?_, ?_, ?_⟩
    · rw [hdata]; simp
    · rw [hdata, List.dropLast_concat]
      constructor
      · exact Clean_no_trailing_slash _
      · intro h; rw [h]; rfl
    · intro h; rw [hp, h]; rfl
  · intro hl
    have hsuf : ¬ HasSuffix pfx "/" = true := fun h => hl ((hasSuffix_slash_iff pfx).mp h)
    simp [listObjectsPath, objectPath, hsuf]

/-- C10: for the root bucket and the prefix `/`, which ends with `/`, the path
that `ListObjects` computes and passes to the resolver is `//`: it ends with two
slashes, not with exactly one. -/
theorem listObjects_root_slash_path :
    HasSuffix "/" "/" = true ∧
    listObjectsPath "root" "/" = "//" ∧
    (ListObjects memAlloc ⟨0⟩ sampleTree "root" "/" "" "" 1000).calls.head? =
      some (.getSingleRegularRef "//") ∧
    listObjectsPath "root" "a/../" = "//" ∧
    listObjectsPath "docs" "/" = "/docs/" :=
  ⟨by decide, by decide, by decide, by decide, by decide⟩

end Zcn
